import Mathlib

/-!
Verification of the queued-inference Job Adapter and the video Task Tracker
of the peinture repository.

JavaScript strings are modelled as lists of characters (`JSStr`); the
adapter functions from the service module and the polling effect from
App.tsx are translated into executable Lean definitions below, and the
spec's claims are settled as theorems about those definitions.
-/

/-- A JavaScript string, modelled as its list of UTF-16-ish characters. -/
abbrev JSStr := List Char

/-- Model of JS `String.prototype.trim`: strip whitespace from both ends. -/
def jsTrim (s : JSStr) : JSStr :=
  ((s.dropWhile Char.isWhitespace).reverse.dropWhile Char.isWhitespace).reverse

/-- Model of JS `String.prototype.split` with a single-character separator. -/
def splitOnChar (c : Char) : JSStr → List JSStr
  | [] => [[]]
  | x :: xs =>
    match splitOnChar c xs with
    | [] => [[]]
    | h :: t => if x = c then [] :: h :: t else (x :: h) :: t

/-- The tag `event:` that starts an event line in the stream. -/
def eventMark : JSStr := "event:".toList

/-- The tag `data:` that starts a data line in the stream. -/
def dataMark : JSStr := "data:".toList

/-- The event name `complete`. -/
def completeStr : JSStr := "complete".toList

/-- The event name `error`. -/
def errorStr : JSStr := "error".toList

/-- The quota-exceeded message thrown by `extractCompleteEventData` on an
`event: error` line (hfService.ts line 69; the apostrophe of the original
message text is omitted here). -/
def quotaMessage : JSStr :=
  "Your todays quota has been used up. You can set up Hugging Face Token to get more quota.".toList

/-- The line-scanning loop of `extractCompleteEventData` (hfService.ts lines
63-82): walk the lines carrying the `isCompleteEvent` flag; an `event:` line
updates the flag (throwing the quota error on `event: error`); the first
`data:` line seen while the flag is set is parsed and returned (`JSON.parse`
success gives the value, a parse failure returns `null`, both modelled by
the abstract `parse : JSStr → Option α`). -/
def extractLines (parse : JSStr → Option α) : List JSStr → Bool → Except JSStr (Option α)
  | [], _ => .ok none
  | line :: rest, isCompleteEvent =>
    if eventMark.isPrefixOf line then
      (if jsTrim (line.drop 6) = completeStr then
        extractLines parse rest true
      else if jsTrim (line.drop 6) = errorStr then
        .error quotaMessage
      else
        extractLines parse rest false)
    else if dataMark.isPrefixOf line && isCompleteEvent then
      .ok (parse (jsTrim (line.drop 5)))
    else
      extractLines parse rest isCompleteEvent

/-- `extractCompleteEventData` (hfService.ts lines 59-84): split the SSE
response text on newlines and scan the lines. `.error quotaMessage` models
the thrown quota Error, `.ok none` the `null` returns. -/
def extractCompleteEventData (parse : JSStr → Option α) (sseStream : JSStr) :
    Except JSStr (Option α) :=
  extractLines parse (splitOnChar '\n' sseStream) false

deriving instance DecidableEq for Except

/-- Characterization of the scanning loop: `true` iff the traversal of these
lines (starting with the given flag) returns a data payload, i.e. reaches a
`data:` line whose most recent preceding `event:` line was `event: complete`,
before hitting any `event: error` line. -/
def returnsData : List JSStr → Bool → Bool
  | [], _ => false
  | line :: rest, isCompleteEvent =>
    if eventMark.isPrefixOf line then
      (if jsTrim (line.drop 6) = completeStr then
        returnsData rest true
      else if jsTrim (line.drop 6) = errorStr then
        false
      else
        returnsData rest false)
    else if dataMark.isPrefixOf line && isCompleteEvent then
      true
    else
      returnsData rest isCompleteEvent

lemma isPrefixOf_append_self (p t : JSStr) : p.isPrefixOf (p ++ t) = true := by
  induction p with
  | nil => simp [List.isPrefixOf]
  | cons c p ih => simp [List.isPrefixOf, ih]

lemma extractLines_event_complete (parse : JSStr → Option α) (line : JSStr)
    (rest : List JSStr) (b : Bool)
    (h1 : eventMark.isPrefixOf line = true) (h2 : jsTrim (line.drop 6) = completeStr) :
    extractLines parse (line :: rest) b = extractLines parse rest true := by
  simp [extractLines, h1, h2]

lemma extractLines_event_error (parse : JSStr → Option α) (line : JSStr)
    (rest : List JSStr) (b : Bool)
    (h1 : eventMark.isPrefixOf line = true) (h2 : jsTrim (line.drop 6) = errorStr) :
    extractLines parse (line :: rest) b = .error quotaMessage := by
  simp [extractLines, h1, h2, show errorStr ≠ completeStr from by decide]

lemma extractLines_event_other (parse : JSStr → Option α) (line : JSStr)
    (rest : List JSStr) (b : Bool)
    (h1 : eventMark.isPrefixOf line = true)
    (h2 : jsTrim (line.drop 6) ≠ completeStr) (h3 : jsTrim (line.drop 6) ≠ errorStr) :
    extractLines parse (line :: rest) b = extractLines parse rest false := by
  simp [extractLines, h1, h2, h3]

lemma extractLines_data_true (parse : JSStr → Option α) (line : JSStr)
    (rest : List JSStr)
    (h1 : eventMark.isPrefixOf line = false) (h2 : dataMark.isPrefixOf line = true) :
    extractLines parse (line :: rest) true = .ok (parse (jsTrim (line.drop 5))) := by
  simp [extractLines, h1, h2]

lemma extractLines_other (parse : JSStr → Option α) (line : JSStr)
    (rest : List JSStr) (b : Bool)
    (h1 : eventMark.isPrefixOf line = false)
    (h4 : (dataMark.isPrefixOf line && b) = false) :
    extractLines parse (line :: rest) b = extractLines parse rest b := by
  simp [extractLines, h1, h4]

lemma returnsData_event_complete (line : JSStr) (rest : List JSStr) (b : Bool)
    (h1 : eventMark.isPrefixOf line = true) (h2 : jsTrim (line.drop 6) = completeStr) :
    returnsData (line :: rest) b = returnsData rest true := by
  simp [returnsData, h1, h2]

lemma returnsData_event_error (line : JSStr) (rest : List JSStr) (b : Bool)
    (h1 : eventMark.isPrefixOf line = true) (h2 : jsTrim (line.drop 6) = errorStr) :
    returnsData (line :: rest) b = false := by
  simp [returnsData, h1, h2, show errorStr ≠ completeStr from by decide]

lemma returnsData_event_other (line : JSStr) (rest : List JSStr) (b : Bool)
    (h1 : eventMark.isPrefixOf line = true)
    (h2 : jsTrim (line.drop 6) ≠ completeStr) (h3 : jsTrim (line.drop 6) ≠ errorStr) :
    returnsData (line :: rest) b = returnsData rest false := by
  simp [returnsData, h1, h2, h3]

lemma returnsData_data_true (line : JSStr) (rest : List JSStr)
    (h1 : eventMark.isPrefixOf line = false) (h2 : dataMark.isPrefixOf line = true) :
    returnsData (line :: rest) true = true := by
  simp [returnsData, h1, h2]

lemma returnsData_other (line : JSStr) (rest : List JSStr) (b : Bool)
    (h1 : eventMark.isPrefixOf line = false)
    (h4 : (dataMark.isPrefixOf line && b) = false) :
    returnsData (line :: rest) b = returnsData rest b := by
  simp [returnsData, h1, h4]

/-- The stream used to falsify claim C1: two `complete` blocks, each with a
`data:` line. -/
def twoCompleteStream : JSStr :=
  "event: complete\ndata: A\nevent: complete\ndata: B".toList

/-- Claim C1 is false on the code: on a stream with two `complete` blocks the
parsed payload returned is the one of the FIRST block (`A`), not the one of
the last block (`B`). -/
theorem extract_not_last_complete :
    extractCompleteEventData (fun s => some s) twoCompleteStream = .ok (some ['A'])
    ∧ extractCompleteEventData (fun s => some s) twoCompleteStream ≠ .ok (some ['B']) := by
  constructor
  · decide
  · decide

/-- Traversing lines that contain no `event: error` line and never return a
payload, and then reaching an `event: complete` line, continues scanning the
remaining lines with the complete flag set, whatever the incoming flag. -/
lemma extractLines_skip_to_complete (parse : JSStr → Option α) :
    ∀ (pre : List JSStr) (b : Bool) (post : List JSStr),
    (∀ l ∈ pre, eventMark.isPrefixOf l = true → jsTrim (l.drop 6) ≠ errorStr) →
    returnsData pre b = false →
    extractLines parse (pre ++ "event: complete".toList :: post) b
      = extractLines parse post true := by
  intro pre
  induction pre with
  | nil =>
    intro b post _ _
    exact extractLines_event_complete parse ("event: complete".toList) post b
      (by decide) (by decide)
  | cons l pre ih =>
    intro b post hne h
    have hl := hne l (List.mem_cons_self l pre)
    have hne' : ∀ x ∈ pre, eventMark.isPrefixOf x = true → jsTrim (x.drop 6) ≠ errorStr :=
      fun x hx => hne x (List.mem_cons_of_mem l hx)
    by_cases he : eventMark.isPrefixOf l = true
    · by_cases hc : jsTrim (l.drop 6) = completeStr
      · rw [List.cons_append, extractLines_event_complete parse l _ b he hc]
        exact ih true post hne'
          (by rwa [returnsData_event_complete l pre b he hc] at h)
      · rw [List.cons_append, extractLines_event_other parse l _ b he hc (hl he)]
        exact ih false post hne'
          (by rwa [returnsData_event_other l pre b he hc (hl he)] at h)
    · rw [Bool.not_eq_true] at he
      by_cases hd : (dataMark.isPrefixOf l && b) = true
      · rcases Bool.and_eq_true_iff.mp hd with ⟨hd1, hb⟩
        subst hb
        rw [returnsData_data_true l pre he hd1] at h
        exact absurd h (by decide)
      · rw [Bool.not_eq_true] at hd
        rw [List.cons_append, extractLines_other parse l _ b he hd]
        exact ih b post hne'
          (by rwa [returnsData_other l pre b he hd] at h)

/-- Claim C1 (amended): for every stream whose lines decompose as an
arbitrary prefix — containing no `event: error` line and no `data:` line
belonging to a `complete` event — followed by an `event: complete` line with
a `data:` line right after it, the payload parsed and returned is that FIRST
data-carrying block's payload, whatever lines (further `complete` blocks
with `data:` lines included) come after it. -/
theorem extract_first_complete_data (parse : JSStr → Option α) (s a : JSStr)
    (pre rest : List JSStr)
    (hs : splitOnChar '\n' s =
      pre ++ "event: complete".toList :: ("data:".toList ++ a) :: rest)
    (hnoerr : ∀ l ∈ pre, eventMark.isPrefixOf l = true → jsTrim (l.drop 6) ≠ errorStr)
    (hnodata : returnsData pre false = false) :
    extractCompleteEventData parse s = .ok (parse (jsTrim a)) := by
  unfold extractCompleteEventData
  rw [hs]
  rw [extractLines_skip_to_complete parse pre false _ hnoerr hnodata]
  rw [extractLines_data_true parse ("data:".toList ++ a) rest
    (by simp [eventMark, List.isPrefixOf])
    (show dataMark.isPrefixOf ("data:".toList ++ a) = true from
      isPrefixOf_append_self dataMark a)]
  rfl

/-- Witness for the amended claim C1: a stream with a preceding heartbeat
event line and two data-carrying `complete` blocks yields the first block's
payload. -/
theorem extract_first_complete_data_witness :
    extractCompleteEventData (fun s : JSStr => some s)
      ("event: heartbeat\nevent: complete\ndata: 7\nevent: complete\ndata: 9".toList)
      = .ok (some ['7']) := by
  have h := extract_first_complete_data (fun s : JSStr => some s)
    ("event: heartbeat\nevent: complete\ndata: 7\nevent: complete\ndata: 9".toList)
    (" 7".toList) ["event: heartbeat".toList]
    ["event: complete".toList, "data: 9".toList]
    (by decide) (by decide) (by decide)
  rw [h]
  decide

/-- Traversing lines that do not return a payload and then reaching an
`event: error` line throws the quota error, whatever lines follow. -/
lemma extractLines_error_after (parse : JSStr → Option α) :
    ∀ (pre : List JSStr) (b : Bool) (post : List JSStr),
    returnsData pre b = false →
    extractLines parse (pre ++ "event: error".toList :: post) b = .error quotaMessage := by
  intro pre
  induction pre with
  | nil =>
    intro b post _
    simpa using extractLines_event_error parse ("event: error".toList) post b
      (by decide) (by decide)
  | cons l pre ih =>
    intro b post h
    by_cases he : eventMark.isPrefixOf l = true
    · by_cases hc : jsTrim (l.drop 6) = completeStr
      · rw [List.cons_append, extractLines_event_complete parse l _ b he hc]
        exact ih true post (by rwa [returnsData_event_complete l pre b he hc] at h)
      · by_cases herr : jsTrim (l.drop 6) = errorStr
        · rw [List.cons_append, extractLines_event_error parse l _ b he herr]
        · rw [List.cons_append, extractLines_event_other parse l _ b he hc herr]
          exact ih false post (by rwa [returnsData_event_other l pre b he hc herr] at h)
    · rw [Bool.not_eq_true] at he
      by_cases hd : (dataMark.isPrefixOf l && b) = true
      · rcases Bool.and_eq_true_iff.mp hd with ⟨hd1, hb⟩
        subst hb
        rw [returnsData_data_true l pre he hd1] at h
        exact absurd h (by decide)
      · rw [Bool.not_eq_true] at hd
        rw [List.cons_append, extractLines_other parse l _ b he hd]
        exact ih b post (by rwa [returnsData_other l pre b he hd] at h)

/-- The stream used to falsify claim C2: a `complete` block with a `data:`
line comes before an `event: error` line. -/
def maskedErrorStream : JSStr := "event: complete\ndata: x\nevent: error".toList

/-- Claim C2 is false on the code: on a stream where a `complete` block with
a `data:` line precedes the `event: error` line, parsing returns that payload
and does not fail with the quota error. -/
theorem extract_error_masked_by_earlier_data :
    extractCompleteEventData (fun s => some s) maskedErrorStream = .ok (some ['x'])
    ∧ extractCompleteEventData (fun s => some s) maskedErrorStream ≠ .error quotaMessage := by
  constructor
  · decide
  · decide

/-- Claim C2 (amended): for every stream containing an `event: error` line
that is not preceded by a `data:` line belonging to a `complete` event
(`returnsData pre false = false`), parsing fails with the quota-exceeded
error — in particular `complete` events (with or without `data:` lines)
after the error never mask it. -/
theorem extract_error_event_errors (parse : JSStr → Option α) (s : JSStr)
    (pre post : List JSStr)
    (hs : splitOnChar '\n' s = pre ++ "event: error".toList :: post)
    (h : returnsData pre false = false) :
    extractCompleteEventData parse s = .error quotaMessage := by
  unfold extractCompleteEventData
  rw [hs]
  exact extractLines_error_after parse pre false post h

/-- Witness for the amended claim C2: an error event followed by a `complete`
block with a `data:` line still fails with the quota error. -/
theorem extract_error_event_errors_witness :
    extractCompleteEventData (fun s : JSStr => some s)
      ("event: error\nevent: complete\ndata: x".toList) = .error quotaMessage :=
  extract_error_event_errors (fun s : JSStr => some s)
    ("event: error\nevent: complete\ndata: x".toList) []
    ["event: complete".toList, "data: x".toList] (by decide) (by decide)

/-- Traversing lines that contain no `event: error` line and never return a
payload falls off the end of the loop and yields `null`. -/
lemma extractLines_ok_none (parse : JSStr → Option α) :
    ∀ (L : List JSStr) (b : Bool),
    (∀ l ∈ L, eventMark.isPrefixOf l = true → jsTrim (l.drop 6) ≠ errorStr) →
    returnsData L b = false →
    extractLines parse L b = .ok none := by
  intro L
  induction L with
  | nil => intro b _ _; rfl
  | cons l rest ih =>
    intro b hne h
    have hl := hne l (List.mem_cons_self l rest)
    by_cases he : eventMark.isPrefixOf l = true
    · by_cases hc : jsTrim (l.drop 6) = completeStr
      · rw [extractLines_event_complete parse l rest b he hc]
        exact ih true (fun x hx => hne x (List.mem_cons_of_mem l hx))
          (by rwa [returnsData_event_complete l rest b he hc] at h)
      · rw [extractLines_event_other parse l rest b he hc (hl he)]
        exact ih false (fun x hx => hne x (List.mem_cons_of_mem l hx))
          (by rwa [returnsData_event_other l rest b he hc (hl he)] at h)
    · rw [Bool.not_eq_true] at he
      by_cases hd : (dataMark.isPrefixOf l && b) = true
      · rcases Bool.and_eq_true_iff.mp hd with ⟨hd1, hb⟩
        subst hb
        rw [returnsData_data_true l rest he hd1] at h
        exact absurd h (by decide)
      · rw [Bool.not_eq_true] at hd
        rw [extractLines_other parse l rest b he hd]
        exact ih b (fun x hx => hne x (List.mem_cons_of_mem l hx))
          (by rwa [returnsData_other l rest b he hd] at h)

/-- Claim C6 (confirmed): a stream that contains a `complete` event, no
`error` event, and no `data:` line belonging to any `complete` event resolves
to `null` (no result) rather than throwing. -/
theorem extract_complete_without_data_yields_none (parse : JSStr → Option α)
    (s : JSStr)
    (_hcomplete : ∃ l ∈ splitOnChar '\n' s,
      eventMark.isPrefixOf l = true ∧ jsTrim (l.drop 6) = completeStr)
    (hnoerr : ∀ l ∈ splitOnChar '\n' s,
      eventMark.isPrefixOf l = true → jsTrim (l.drop 6) ≠ errorStr)
    (hnodata : returnsData (splitOnChar '\n' s) false = false) :
    extractCompleteEventData parse s = .ok none :=
  extractLines_ok_none parse (splitOnChar '\n' s) false hnoerr hnodata

/-- Witness for claim C6 at a concrete stream. -/
theorem extract_complete_without_data_yields_none_witness :
    extractCompleteEventData (fun s : JSStr => some s)
      ("event: complete\nfoo".toList) = .ok none :=
  extract_complete_without_data_yields_none (fun s : JSStr => some s)
    ("event: complete\nfoo".toList) (by decide) (by decide) (by decide)

/-- The record status string `generating`. -/
def generatingStr : JSStr := "generating".toList

/-- The record/remote status string `success`. -/
def successStr : JSStr := "success".toList

/-- The record/remote status string `failed`. -/
def failedStr : JSStr := "failed".toList

/-- The background-task provider name `gitee`. -/
def giteeStr : JSStr := "gitee".toList

/-- The fallback error message used when a failed poll response carries no
error text (App.tsx line 262). -/
def defaultFailMsg : JSStr := "Video generation failed".toList

/-- JS truthiness of an optional string: `undefined`/`null` and the empty
string are falsy. -/
def truthyStr : Option JSStr → Bool
  | some s => !s.isEmpty
  | none => false

/-- JS `a || d` for an optional string `a` and a default `d`. -/
def orDefault (o : Option JSStr) (d : JSStr) : JSStr :=
  match o with
  | some s => if s.isEmpty then d else s
  | none => d

/-- The video-tracking fields of a history record (a `GeneratedImage` item of
the `history` state in App.tsx). -/
structure TaskRecord where
  id : JSStr
  videoStatus : Option JSStr
  videoTaskId : Option JSStr
  videoProvider : Option JSStr
  videoUrl : Option JSStr
  videoError : Option JSStr
deriving DecidableEq, Repr

/-- The response of `getGiteeTaskStatus`: a status string plus optional
result URL and error message. -/
structure PollResult where
  status : JSStr
  videoUrl : Option JSStr
  error : Option JSStr
deriving DecidableEq, Repr

/-- One element of the `validUpdates` array built in the poll cycle
(App.tsx line 243: the record id spread together with the poll result). -/
structure TaskUpdate where
  id : JSStr
  status : JSStr
  videoUrl : Option JSStr
  error : Option JSStr
deriving DecidableEq, Repr

/-- The filter selecting the records polled in a cycle (App.tsx lines
229-233): status `generating`, a truthy task id, and the `gitee` provider. -/
def isPending (img : TaskRecord) : Bool :=
  decide (img.videoStatus = some generatingStr) && truthyStr img.videoTaskId
    && decide (img.videoProvider = some giteeStr)

/-- One poll of `getGiteeTaskStatus` for one record (App.tsx lines 238-249):
the guard on a falsy task id returns `null`; a thrown error (network/parse,
modelled by `Except.error`) is caught and also yields `null`; a terminal
response is turned into an update, a non-terminal one yields `null`.
`env` maps a task id to the outcome of `getGiteeTaskStatus` on it. -/
def pollOne (env : JSStr → Except Unit PollResult) (img : TaskRecord) :
    Option TaskUpdate :=
  if truthyStr img.videoTaskId = false then none
  else
    match env (img.videoTaskId.getD []) with
    | .error _ => none
    | .ok result =>
      if result.status = successStr ∨ result.status = failedStr then
        some ⟨img.id, result.status, result.videoUrl, result.error⟩
      else none

/-- The task ids on which a `getGiteeTaskStatus` call is actually issued for
one record: the call happens unless the falsy-task-id guard fires. -/
def polledIdOf (img : TaskRecord) : Option JSStr :=
  if truthyStr img.videoTaskId = false then none
  else some (img.videoTaskId.getD [])

/-- The `setHistory` merge applied to one record (App.tsx lines 255-266):
find this record's update among `validUpdates`; a `success` update with a
truthy URL attaches the URL, a `failed` update attaches the error message
(or the default one), anything else leaves the record alone. -/
def applyUpdate (valid : List TaskUpdate) (item : TaskRecord) : TaskRecord :=
  match valid.find? (fun u => decide (u.id = item.id)) with
  | none => item
  | some u =>
    if u.status = successStr ∧ truthyStr u.videoUrl then
      { item with videoStatus := some successStr, videoUrl := u.videoUrl }
    else if u.status = failedStr then
      { item with videoStatus := some failedStr,
                  videoError := some (orDefault u.error defaultFailMsg) }
    else item

/-- The `validUpdates` list of one cycle: the non-`null` poll outcomes of the
pending records, in order (App.tsx lines 238-251). -/
def validOf (env : JSStr → Except Unit PollResult) (hist : List TaskRecord) :
    List TaskUpdate :=
  ((hist.filter isPending).map (pollOne env)).filterMap id

/-- One cycle of the poll interval (App.tsx lines 226-266). The first
component lists the task ids on which a status call was issued (none when
there are no pending records — the early return), the second is the new
history. The `validUpdates.length > 0` guard of the source is kept: with no
valid updates `setHistory` is not called and the history object is returned
untouched. -/
def pollCycle (env : JSStr → Except Unit PollResult) (hist : List TaskRecord) :
    List JSStr × List TaskRecord :=
  if (hist.filter isPending).isEmpty then ([], hist)
  else if 0 < (validOf env hist).length then
    ((hist.filter isPending).filterMap polledIdOf,
      hist.map (applyUpdate (validOf env hist)))
  else
    ((hist.filter isPending).filterMap polledIdOf, hist)

lemma applyUpdate_nil (item : TaskRecord) : applyUpdate [] item = item := rfl

lemma map_applyUpdate_nil (hist : List TaskRecord) : hist.map (applyUpdate []) = hist := by
  have h : applyUpdate [] = fun item => item := funext applyUpdate_nil
  simp [h]

lemma validOf_of_filter_empty {env : JSStr → Except Unit PollResult}
    {hist : List TaskRecord} (h : hist.filter isPending = []) :
    validOf env hist = [] := by
  unfold validOf
  rw [h]
  rfl

lemma pollCycle_snd (env : JSStr → Except Unit PollResult) (hist : List TaskRecord) :
    (pollCycle env hist).2 = hist.map (applyUpdate (validOf env hist)) := by
  unfold pollCycle
  by_cases hp : (hist.filter isPending).isEmpty
  · have he : hist.filter isPending = [] := by simpa using hp
    rw [validOf_of_filter_empty he]
    simp [hp, map_applyUpdate_nil]
  · by_cases hv : 0 < (validOf env hist).length
    · simp [hp, hv]
    · have he : validOf env hist = [] :=
        List.length_eq_zero.mp (Nat.eq_zero_of_not_pos hv)
      rw [he]
      simp [hp, hv, he, map_applyUpdate_nil]

lemma pollCycle_fst (env : JSStr → Except Unit PollResult) (hist : List TaskRecord) :
    (pollCycle env hist).1 = (hist.filter isPending).filterMap polledIdOf := by
  unfold pollCycle
  by_cases hp : (hist.filter isPending).isEmpty
  · have he : hist.filter isPending = [] := by simpa using hp
    simp [hp, he]
  · by_cases hv : 0 < (validOf env hist).length
    · simp [hp, hv]
    · simp [hp, hv]

lemma truthy_of_pending {r : TaskRecord} (h : isPending r = true) :
    truthyStr r.videoTaskId = true := by
  unfold isPending at h
  simp only [Bool.and_eq_true] at h
  exact h.1.2

lemma polledIdOf_of_pending {r : TaskRecord} (h : isPending r = true) :
    ∃ tid, polledIdOf r = some tid := by
  refine ⟨r.videoTaskId.getD [], ?_⟩
  unfold polledIdOf
  rw [if_neg (by rw [truthy_of_pending h]; decide)]

lemma filterMap_polledIdOf_length :
    ∀ (l : List TaskRecord), (∀ x ∈ l, isPending x = true) →
    (l.filterMap polledIdOf).length = l.length := by
  intro l
  induction l with
  | nil => intro _; rfl
  | cons x l ih =>
    intro h
    obtain ⟨tid, htid⟩ := polledIdOf_of_pending (h x (List.mem_cons_self x l))
    rw [List.filterMap_cons_some htid, List.length_cons, List.length_cons,
      ih (fun y hy => h y (List.mem_cons_of_mem x hy))]

lemma isPending_false_of_terminal {r : TaskRecord}
    (h : r.videoStatus = some successStr ∨ r.videoStatus = some failedStr) :
    isPending r = false := by
  unfold isPending
  rcases h with h | h <;> rw [h]
  · rw [show decide ((some successStr : Option JSStr) = some generatingStr) = false from
      by decide]
    simp
  · rw [show decide ((some failedStr : Option JSStr) = some generatingStr) = false from
      by decide]
    simp

/-- Claim C4 (confirmed): a cycle issues exactly one status poll per pending
record (so N pending records means N polls); a cycle with zero pending
records issues no polls and returns the history untouched; and a record in a
terminal state never satisfies the pending filter, hence is excluded from the
poll set. -/
theorem poll_cycle_one_poll_per_pending (env : JSStr → Except Unit PollResult)
    (hist : List TaskRecord) :
    ((pollCycle env hist).1.length = (hist.filter isPending).length)
    ∧ (hist.filter isPending = [] → pollCycle env hist = ([], hist))
    ∧ (∀ r : TaskRecord,
        r.videoStatus = some successStr ∨ r.videoStatus = some failedStr →
        isPending r = false) := by
  refine ⟨?_, ?_, ?_⟩
  · rw [pollCycle_fst]
    exact filterMap_polledIdOf_length (hist.filter isPending)
      (fun x hx => (List.mem_filter.mp hx).2)
  · intro h
    unfold pollCycle
    rw [h]
    rfl
  · intro r hr
    exact isPending_false_of_terminal hr

/-- A concrete terminal record used in witnesses. -/
def sampleDone : TaskRecord :=
  ⟨['b'], some successStr, some ['t', '2'], some giteeStr, some ['u'], none⟩

/-- A concrete pending record used in witnesses. -/
def samplePending : TaskRecord :=
  ⟨['a'], some generatingStr, some ['t', '1'], some giteeStr, none, none⟩

/-- A concrete environment whose polls always report success. -/
def envAllSuccess : JSStr → Except Unit PollResult :=
  fun _ => .ok ⟨successStr, some ['u'], none⟩

/-- Witness for claim C4: a terminal record is excluded from the poll set. -/
theorem poll_cycle_one_poll_per_pending_witness : isPending sampleDone = false :=
  (poll_cycle_one_poll_per_pending envAllSuccess [samplePending, sampleDone]).2.2
    sampleDone (Or.inl rfl)

lemma pollOne_id {env : JSStr → Except Unit PollResult} {p : TaskRecord}
    {u : TaskUpdate} (h : pollOne env p = some u) : u.id = p.id := by
  unfold pollOne at h
  split at h
  · exact absurd h (by simp)
  · split at h
    · exact absurd h (by simp)
    · split at h
      · cases h; rfl
      · exact absurd h (by simp)

lemma pollOne_eq_none_of_nonterminal {env : JSStr → Except Unit PollResult}
    {p : TaskRecord} {tid : JSStr} {res : PollResult}
    (htid : p.videoTaskId = some tid) (henv : env tid = .ok res)
    (hns : res.status ≠ successStr) (hnf : res.status ≠ failedStr) :
    pollOne env p = none := by
  unfold pollOne
  rw [htid]
  simp only [Option.getD_some]
  rw [henv]
  by_cases hemp : truthyStr (some tid) = false
  · rw [if_pos hemp]
  · rw [if_neg hemp]
    show (if res.status = successStr ∨ res.status = failedStr
      then some (⟨p.id, res.status, res.videoUrl, res.error⟩ : TaskUpdate)
      else none) = none
    exact if_neg (by rintro (hh | hh) <;> [exact hns hh; exact hnf hh])

lemma pollOne_eq_none_of_error {env : JSStr → Except Unit PollResult}
    {p : TaskRecord} {tid : JSStr}
    (htid : p.videoTaskId = some tid) (henv : env tid = .error ()) :
    pollOne env p = none := by
  unfold pollOne
  rw [htid]
  simp only [Option.getD_some]
  rw [henv]
  by_cases hemp : truthyStr (some tid) = false
  · rw [if_pos hemp]
  · rw [if_neg hemp]

lemma applyUpdate_find_none {valid : List TaskUpdate} {item : TaskRecord}
    (h : valid.find? (fun u => decide (u.id = item.id)) = none) :
    applyUpdate valid item = item := by
  unfold applyUpdate
  rw [h]

lemma applyUpdate_find_some {valid : List TaskUpdate} {item : TaskRecord}
    {u : TaskUpdate}
    (h : valid.find? (fun u => decide (u.id = item.id)) = some u) :
    applyUpdate valid item =
      (if u.status = successStr ∧ truthyStr u.videoUrl then
        { item with videoStatus := some successStr, videoUrl := u.videoUrl }
      else if u.status = failedStr then
        { item with videoStatus := some failedStr,
                    videoError := some (orDefault u.error defaultFailMsg) }
      else item) := by
  unfold applyUpdate
  rw [h]

lemma mem_validOf {env : JSStr → Except Unit PollResult} {hist : List TaskRecord}
    {u : TaskUpdate} (hu : u ∈ validOf env hist) :
    ∃ p, p ∈ hist ∧ isPending p = true ∧ pollOne env p = some u := by
  unfold validOf at hu
  rw [List.mem_filterMap] at hu
  obtain ⟨a, ha, hid⟩ := hu
  rw [List.mem_map] at ha
  obtain ⟨p, hp, hpoll⟩ := ha
  rw [List.mem_filter] at hp
  exact ⟨p, hp.1, hp.2, by rw [hpoll]; exact hid⟩

lemma applyUpdate_eq_self_of {valid : List TaskUpdate} {item : TaskRecord}
    (h : ∀ u ∈ valid, ¬ u.id = item.id) : applyUpdate valid item = item := by
  unfold applyUpdate
  rw [List.find?_eq_none.mpr (fun u hu => by simpa using h u hu)]

lemma pollCycle_getElem (env : JSStr → Except Unit PollResult)
    (hist : List TaskRecord) (i : Nat) (q : TaskRecord) (hq : hist[i]? = some q) :
    (pollCycle env hist).2[i]? = some (applyUpdate (validOf env hist) q) := by
  rw [pollCycle_snd, List.getElem?_map, hq]
  rfl

/-- Claim C3 (confirmed, assuming the history's record ids are pairwise
distinct — they are minted by `crypto.randomUUID()`): in a poll cycle a
terminal record is returned unchanged; a `generating` record either stays
unchanged or becomes `success` while gaining a (truthy) result URL or
becomes `failed` while gaining an error message; and a record whose task's
poll response is non-terminal is returned unchanged. -/
theorem task_record_monotonic (env : JSStr → Except Unit PollResult)
    (hist : List TaskRecord) (hnd : (hist.map (fun r => r.id)).Nodup) :
    ∀ (i : Nat) (q : TaskRecord), hist[i]? = some q →
    ((q.videoStatus = some successStr ∨ q.videoStatus = some failedStr) →
        (pollCycle env hist).2[i]? = some q)
    ∧ (q.videoStatus = some generatingStr →
        (pollCycle env hist).2[i]? = some q
        ∨ (∃ url, url.isEmpty = false ∧ (pollCycle env hist).2[i]? =
            some { q with videoStatus := some successStr, videoUrl := some url })
        ∨ (∃ msg, (pollCycle env hist).2[i]? =
            some { q with videoStatus := some failedStr, videoError := some msg }))
    ∧ (∀ tid res, q.videoTaskId = some tid → env tid = .ok res →
        res.status ≠ successStr → res.status ≠ failedStr →
        (pollCycle env hist).2[i]? = some q) := by
  intro i q hq
  have hmem : q ∈ hist := List.getElem?_mem hq
  have hget := pollCycle_getElem env hist i q hq
  refine ⟨?_, ?_, ?_⟩
  · intro hterm
    rw [hget, applyUpdate_eq_self_of]
    intro u hu heq
    obtain ⟨p, hp, hpend, hpoll⟩ := mem_validOf hu
    have hpq : p = q :=
      List.inj_on_of_nodup_map hnd hp hmem (by rw [← pollOne_id hpoll, heq])
    rw [hpq] at hpend
    rw [isPending_false_of_terminal hterm] at hpend
    exact absurd hpend (by decide)
  · intro _
    rw [hget]
    cases hfind : (validOf env hist).find? (fun u => decide (u.id = q.id)) with
    | none => rw [applyUpdate_find_none hfind]; exact Or.inl rfl
    | some u =>
      rw [applyUpdate_find_some hfind]
      by_cases hsucc : u.status = successStr ∧ truthyStr u.videoUrl
      · rw [if_pos hsucc]
        cases hurl : u.videoUrl with
        | none =>
          rw [hurl] at hsucc
          exact absurd hsucc.2 (by simp [truthyStr])
        | some url =>
          refine Or.inr (Or.inl ⟨url, ?_, ?_⟩)
          · have h := hsucc.2
            rw [hurl] at h
            simpa [truthyStr] using h
          · rfl
      · rw [if_neg hsucc]
        by_cases hfail : u.status = failedStr
        · rw [if_pos hfail]
          exact Or.inr (Or.inr ⟨orDefault u.error defaultFailMsg, rfl⟩)
        · rw [if_neg hfail]
          exact Or.inl rfl
  · intro tid res htid henv hns hnf
    rw [hget, applyUpdate_eq_self_of]
    intro u hu heq
    obtain ⟨p, hp, hpend, hpoll⟩ := mem_validOf hu
    have hpq : p = q :=
      List.inj_on_of_nodup_map hnd hp hmem (by rw [← pollOne_id hpoll, heq])
    rw [hpq] at hpoll
    rw [pollOne_eq_none_of_nonterminal htid henv hns hnf] at hpoll
    exact absurd hpoll (by simp)

/-- Witness for claim C3: a cycle run over a pending and a terminal record
returns the terminal record unchanged. -/
theorem task_record_monotonic_witness :
    (pollCycle envAllSuccess [samplePending, sampleDone]).2[1]? = some sampleDone :=
  (task_record_monotonic envAllSuccess [samplePending, sampleDone] (by decide)
    1 sampleDone (by decide)).1 (Or.inl rfl)

lemma find?_eq_find?_filter {α : Type} (p w : α → Bool)
    (h : ∀ x, p x = true → w x = true) :
    ∀ l : List α, l.find? p = (l.filter w).find? p := by
  intro l
  induction l with
  | nil => rfl
  | cons a l ih =>
    by_cases hw : w a = true
    · rw [List.filter_cons_of_pos hw]
      by_cases hp : p a = true
      · rw [List.find?_cons_of_pos l hp, List.find?_cons_of_pos _ hp]
      · rw [List.find?_cons_of_neg l (by simpa using hp),
          List.find?_cons_of_neg _ (by simpa using hp), ih]
    · have hp : ¬ p a = true := fun hpa => hw (h a hpa)
      rw [List.filter_cons_of_neg (by simpa using hw),
        List.find?_cons_of_neg l (by simpa using hp), ih]

lemma pollOne_congr {env env₂ : JSStr → Except Unit PollResult} {p : TaskRecord}
    (h : ∀ t, p.videoTaskId = some t → env₂ t = env t) :
    pollOne env₂ p = pollOne env p := by
  unfold pollOne
  cases htid : p.videoTaskId with
  | none => rfl
  | some t =>
    simp only [Option.getD_some]
    rw [h t htid]

/-- The valid updates of a cycle, with the failing record's (absent) update
filtered away on both sides, do not depend on the outcome of the failing
record's poll. -/
lemma validOf_filter_agree {env env₂ : JSStr → Except Unit PollResult}
    {hist : List TaskRecord} {r : TaskRecord} {tid : JSStr}
    (htid : r.videoTaskId = some tid)
    (huniq : ∀ q ∈ hist, q.videoTaskId = some tid → q = r)
    (hfail : env tid = .error ())
    (hagree : ∀ t, t ≠ tid → env₂ t = env t) :
    ∀ P : List TaskRecord, (∀ p ∈ P, p ∈ hist) →
    ((P.map (pollOne env)).filterMap id).filter (fun u => !decide (u.id = r.id))
      = ((P.map (pollOne env₂)).filterMap id).filter (fun u => !decide (u.id = r.id)) := by
  intro P
  induction P with
  | nil => intro _; rfl
  | cons p P ih =>
    intro hmem
    have hmemP : ∀ x ∈ P, x ∈ hist := fun x hx => hmem x (List.mem_cons_of_mem p hx)
    by_cases hpr : p = r
    · subst hpr
      rw [List.map_cons, List.map_cons,
        List.filterMap_cons_none (show id (pollOne env p) = none from
          pollOne_eq_none_of_error htid hfail)]
      cases hpoll : pollOne env₂ p with
      | none =>
        rw [List.filterMap_cons_none
          (show id (none : Option TaskUpdate) = none from rfl)]
        exact ih hmemP
      | some u =>
        rw [List.filterMap_cons_some (show id (some u) = some u from rfl)]
        rw [List.filter_cons_of_neg (by simp [pollOne_id hpoll])]
        exact ih hmemP
    · have hcongr : pollOne env₂ p = pollOne env p := by
        refine pollOne_congr (fun t ht => ?_)
        refine hagree t (fun htt => ?_)
        subst htt
        exact hpr (huniq p (hmem p (List.mem_cons_self p P)) ht)
      rw [List.map_cons, List.map_cons, hcongr]
      cases hpoll : pollOne env p with
      | none =>
        rw [List.filterMap_cons_none
          (show id (none : Option TaskUpdate) = none from rfl)]
        exact ih hmemP
      | some u =>
        rw [List.filterMap_cons_some (show id (some u) = some u from rfl),
          List.filterMap_cons_some (show id (some u) = some u from rfl)]
        have hrec := ih hmemP
        by_cases hid : u.id = r.id
        · simp [List.filter_cons, hid]
          simpa using hrec
        · simp [List.filter_cons, hid]
          simpa using hrec

/-- Claim C5 (confirmed, assuming distinct record ids and that no other
record shares the failing record's task id): when the poll for one pending
record's task id fails (a thrown network/parse error), the cycle returns
that record unchanged — it stays `generating` and satisfies the pending
filter again for the next cycle — and every other record's outcome is
exactly what it would have been under any environment that differs only on
the failing task id. -/
theorem poll_failure_isolated (env env₂ : JSStr → Except Unit PollResult)
    (hist : List TaskRecord) (r : TaskRecord) (tid : JSStr)
    (hnd : (hist.map (fun x => x.id)).Nodup)
    (hp : isPending r = true)
    (htid : r.videoTaskId = some tid)
    (huniq : ∀ q ∈ hist, q.videoTaskId = some tid → q = r)
    (hfail : env tid = .error ())
    (hagree : ∀ t, t ≠ tid → env₂ t = env t) :
    (∀ i : Nat, hist[i]? = some r →
      (pollCycle env hist).2[i]? = some r ∧ isPending r = true)
    ∧ (∀ (i : Nat) (q : TaskRecord), hist[i]? = some q → q.id ≠ r.id →
      (pollCycle env hist).2[i]? = (pollCycle env₂ hist).2[i]?) := by
  constructor
  · intro i hi
    refine ⟨?_, hp⟩
    rw [pollCycle_getElem env hist i r hi, applyUpdate_eq_self_of]
    intro u hu heq
    obtain ⟨p, hpmem, hpend, hpoll⟩ := mem_validOf hu
    have hmem : r ∈ hist := List.getElem?_mem hi
    have hpq : p = r :=
      List.inj_on_of_nodup_map hnd hpmem hmem (by rw [← pollOne_id hpoll, heq])
    rw [hpq, pollOne_eq_none_of_error htid hfail] at hpoll
    exact absurd hpoll (by simp)
  · intro i q hi hqr
    rw [pollCycle_getElem env hist i q hi, pollCycle_getElem env₂ hist i q hi]
    have hfilter :
        (validOf env hist).filter (fun u => !decide (u.id = r.id))
          = (validOf env₂ hist).filter (fun u => !decide (u.id = r.id)) :=
      validOf_filter_agree htid huniq hfail hagree (hist.filter isPending)
        (fun p hp => (List.mem_filter.mp hp).1)
    have hfindeq :
        (validOf env hist).find? (fun u => decide (u.id = q.id))
          = (validOf env₂ hist).find? (fun u => decide (u.id = q.id)) := by
      rw [find?_eq_find?_filter (fun u => decide (u.id = q.id))
          (fun u => !decide (u.id = r.id))
          (fun x hx => by
            simp only [decide_eq_true_eq] at hx
            simp [hx, hqr]) (validOf env hist),
        find?_eq_find?_filter (fun u => decide (u.id = q.id))
          (fun u => !decide (u.id = r.id))
          (fun x hx => by
            simp only [decide_eq_true_eq] at hx
            simp [hx, hqr]) (validOf env₂ hist),
        hfilter]
    cases hfind : (validOf env₂ hist).find? (fun u => decide (u.id = q.id)) with
    | none =>
      rw [applyUpdate_find_none (hfindeq.trans hfind), applyUpdate_find_none hfind]
    | some u =>
      rw [applyUpdate_find_some (hfindeq.trans hfind), applyUpdate_find_some hfind]

/-- An environment in which every poll throws. -/
def envAllFail : JSStr → Except Unit PollResult := fun _ => .error ()

/-- An environment that succeeds on the sample pending task id and throws
elsewhere. -/
def envOneSuccess : JSStr → Except Unit PollResult :=
  fun t => if t = ['t', '1'] then .ok ⟨successStr, some ['u'], none⟩ else envAllFail t

/-- Witness for claim C5: under the all-failing environment the pending
record comes out of the cycle unchanged. -/
theorem poll_failure_isolated_witness :
    (pollCycle envAllFail [samplePending]).2[0]? = some samplePending
    ∧ isPending samplePending = true :=
  (poll_failure_isolated envAllFail envOneSuccess [samplePending] samplePending
    (['t', '1']) (by decide) (by decide) (by decide) (by decide) rfl
    (fun t ht => by simp [envOneSuccess, ht])).1 0 (by decide)

/-- The aspect-ratio options of the UI (types.ts line 251). -/
inductive AspectRatioOption where
  | r1_1 | r3_2 | r2_3 | r3_4 | r4_3 | r4_5 | r5_4 | r9_16 | r16_9
deriving DecidableEq, Fintype, Repr

/-- The literal string of each aspect-ratio option (types.ts line 251). -/
def ratioLabel : AspectRatioOption → JSStr
  | .r1_1 => "1:1".toList
  | .r3_2 => "3:2".toList
  | .r2_3 => "2:3".toList
  | .r3_4 => "3:4".toList
  | .r4_3 => "4:3".toList
  | .r4_5 => "4:5".toList
  | .r5_4 => "5:4".toList
  | .r9_16 => "9:16".toList
  | .r16_9 => "16:9".toList

/-- The numerator and denominator a ratio label denotes. -/
def ratioNumbers : AspectRatioOption → Nat × Nat
  | .r1_1 => (1, 1)
  | .r3_2 => (3, 2)
  | .r2_3 => (2, 3)
  | .r3_4 => (3, 4)
  | .r4_3 => (4, 3)
  | .r4_5 => (4, 5)
  | .r5_4 => (5, 4)
  | .r9_16 => (9, 16)
  | .r16_9 => (16, 9)

/-- A width/height pair. -/
structure Dimension where
  width : Nat
  height : Nat
deriving DecidableEq, Repr

/-- `getZImageDimensions` (hfService.ts lines 8-46): the switch lists seven
ratios; `1:1` and every unlisted ratio (in particular `4:5` and `5:4`) fall
through to the square default. -/
def getZImageDimensions (ar : AspectRatioOption) (enableHD : Bool) : Dimension :=
  if enableHD then
    match ar with
    | .r16_9 => ⟨2048, 1152⟩
    | .r4_3 => ⟨2048, 1536⟩
    | .r3_2 => ⟨1920, 1280⟩
    | .r9_16 => ⟨1152, 2048⟩
    | .r3_4 => ⟨1536, 2048⟩
    | .r2_3 => ⟨1280, 1920⟩
    | _ => ⟨2048, 2048⟩
  else
    match ar with
    | .r16_9 => ⟨1280, 720⟩
    | .r4_3 => ⟨1024, 768⟩
    | .r3_2 => ⟨1536, 1024⟩
    | .r9_16 => ⟨720, 1280⟩
    | .r3_4 => ⟨768, 1024⟩
    | .r2_3 => ⟨1024, 1536⟩
    | _ => ⟨1024, 1024⟩

/-- A JSON-ish runtime value, as much of one as the adapters manipulate. -/
inductive JValue where
  | jstr : JSStr → JValue
  | jnum : Int → JValue
  | jbool : Bool → JValue
deriving DecidableEq, Repr

/-- The seed echo text of the qwen backend (hfService.ts line 151). -/
def seedEchoTag : JSStr := "Seed used for generation: ".toList

/-- Model of JS `String.prototype.replace` with a plain-string pattern:
replace the first occurrence, return the string unchanged when the pattern
does not occur (the pattern is assumed nonempty, as it is at the call site). -/
def replaceFirst (pat repl : JSStr) : JSStr → JSStr
  | [] => []
  | c :: rest =>
    if pat.isPrefixOf (c :: rest) then repl ++ (c :: rest).drop pat.length
    else c :: replaceFirst pat repl rest

/-- The number denoted by a string of decimal digits. -/
def digitsVal (ds : JSStr) : Nat := ds.foldl (fun a c => 10 * a + (c.toNat - 48)) 0

/-- The leading run of decimal digits, as a number; `none` when there is
none (JS `parseInt` then yields `NaN`). -/
def jsTakeDigits (s : JSStr) : Option Nat :=
  if (s.takeWhile Char.isDigit).isEmpty then none
  else some (digitsVal (s.takeWhile Char.isDigit))

/-- Model of JS `parseInt` with radix 10: skip leading whitespace, read an
optional sign and then the leading decimal digits; `none` models `NaN`. -/
def jsParseInt (s : JSStr) : Option Int :=
  if (s.dropWhile Char.isWhitespace).headD ' ' = '-' then
    (jsTakeDigits (s.dropWhile Char.isWhitespace).tail).map (fun n => -(n : Int))
  else if (s.dropWhile Char.isWhitespace).headD ' ' = '+' then
    (jsTakeDigits (s.dropWhile Char.isWhitespace).tail).map (fun n => (n : Int))
  else
    (jsTakeDigits (s.dropWhile Char.isWhitespace)).map (fun n => (n : Int))

/-- The seed stored by `generateQwenImage` (hfService.ts line 151):
`parseInt(data[1].replace('Seed used for generation: ', ''))`. A non-string
payload value (on which `.replace` would throw) is modelled as `none`. -/
def qwenStoredSeed : JValue → Option JValue
  | .jstr s => (jsParseInt (replaceFirst seedEchoTag [] s)).map .jnum
  | _ => none

/-- The seed stored by `generateZImage` (hfService.ts line 116): the payload
value `data[1]` verbatim, with no parsing of any kind. -/
def zStoredSeed (v : JValue) : JValue := v

lemma isDigit_not_whitespace {c : Char} (h : c.isDigit = true) :
    c.isWhitespace = false := by
  by_cases h1 : c = ' '
  · subst h1; exact absurd h (by decide)
  · by_cases h2 : c = '\t'
    · subst h2; exact absurd h (by decide)
    · by_cases h3 : c = '\r'
      · subst h3; exact absurd h (by decide)
      · by_cases h4 : c = '\n'
        · subst h4; exact absurd h (by decide)
        · simp [Char.isWhitespace, h1, h2, h3, h4]

lemma isDigit_ne_sign {c : Char} (h : c.isDigit = true) : c ≠ '-' ∧ c ≠ '+' := by
  constructor <;> rintro rfl <;> exact absurd h (by decide)

lemma takeWhile_all {p : Char → Bool} :
    ∀ l : JSStr, (∀ c ∈ l, p c = true) → l.takeWhile p = l := by
  intro l
  induction l with
  | nil => intro _; rfl
  | cons c l ih =>
    intro h
    rw [List.takeWhile_cons_of_pos (h c (List.mem_cons_self c l)),
      ih (fun x hx => h x (List.mem_cons_of_mem c hx))]

lemma jsParseInt_digits (ds : JSStr) (hne : ds ≠ [])
    (hdig : ∀ c ∈ ds, c.isDigit = true) :
    jsParseInt ds = some ((digitsVal ds : Nat) : Int) := by
  cases ds with
  | nil => exact absurd rfl hne
  | cons d ds =>
    have hd : d.isDigit = true := hdig d (List.mem_cons_self d ds)
    have hdw : (d :: ds).dropWhile Char.isWhitespace = d :: ds :=
      List.dropWhile_cons_of_neg (by simp [isDigit_not_whitespace hd])
    unfold jsParseInt
    rw [hdw]
    rw [if_neg (by simpa using (isDigit_ne_sign hd).1)]
    rw [if_neg (by simpa using (isDigit_ne_sign hd).2)]
    unfold jsTakeDigits
    rw [takeWhile_all _ hdig]
    rw [if_neg (by simp)]
    rfl

lemma replaceFirst_self_append (c : Char) (p t : JSStr) :
    replaceFirst (c :: p) [] ((c :: p) ++ t) = t := by
  show replaceFirst (c :: p) [] (c :: (p ++ t)) = t
  unfold replaceFirst
  rw [if_pos (show (c :: p).isPrefixOf (c :: (p ++ t)) = true from
    isPrefixOf_append_self (c :: p) t)]
  rw [List.nil_append, List.length_cons, List.drop_succ_cons, List.drop_left]

/-- The payload used to falsify claim C7 for the z-image-turbo backend. -/
def seedEchoPayload : JValue := .jstr ("Seed used for generation: 42".toList)

/-- Claim C7 is false on the code for the z-image-turbo backend: its adapter
stores the payload's second element verbatim, so an echoed
`Seed used for generation: 42` string would be stored as that string, not as
the integer 42. -/
theorem z_seed_stored_verbatim :
    zStoredSeed seedEchoPayload = .jstr ("Seed used for generation: 42".toList)
    ∧ zStoredSeed seedEchoPayload ≠ .jnum 42 := by
  constructor
  · rfl
  · decide

/-- Claim C7 (amended): the qwen-image-fast adapter parses an echoed
`Seed used for generation: N` into the integer N; the z-image-turbo adapter
stores the payload value verbatim without parsing, so the guarantee holds
only for the qwen backend. -/
theorem qwen_seed_parsed (ds : JSStr) (hne : ds ≠ [])
    (hdig : ∀ c ∈ ds, c.isDigit = true) :
    qwenStoredSeed (.jstr (seedEchoTag ++ ds)) = some (.jnum (digitsVal ds))
    ∧ zStoredSeed (.jstr (seedEchoTag ++ ds)) = .jstr (seedEchoTag ++ ds) := by
  constructor
  · show (jsParseInt (replaceFirst seedEchoTag [] (seedEchoTag ++ ds))).map JValue.jnum
      = some (.jnum (digitsVal ds))
    rw [show replaceFirst seedEchoTag [] (seedEchoTag ++ ds) = ds from
      replaceFirst_self_append 'S' ("eed used for generation: ".toList) ds]
    rw [jsParseInt_digits ds hne hdig]
    rfl
  · rfl

/-- Witness for the amended claim C7: the spec's round-trip example, echoing
seed 42. -/
theorem qwen_seed_parsed_witness :
    qwenStoredSeed (.jstr ("Seed used for generation: 42".toList))
      = some (.jnum 42) := by
  have h := (qwen_seed_parsed ("42".toList) (by decide) (by decide)).1
  rw [show ("Seed used for generation: 42".toList : JSStr)
    = seedEchoTag ++ "42".toList from by decide]
  rw [h]
  decide

/-- The `Content-Type: application/json` header always present
(hfService.ts lines 50-52). -/
def contentTypeHeader : JSStr × JSStr :=
  ("Content-Type".toList, "application/json".toList)

/-- `getAuthHeaders` (hfService.ts lines 48-57): the token read from local
storage (`none` models a missing key); a truthy token adds the
`Authorization: Bearer` header next to the always-present content type. -/
def getAuthHeaders (token : Option JSStr) : List (JSStr × JSStr) :=
  if truthyStr token = false then [contentTypeHeader]
  else [contentTypeHeader,
    ("Authorization".toList, "Bearer ".toList ++ token.getD [])]

/-- An HTTP request as the adapter assembles it: target URL, headers, and
the JSON `data` array of a POST body (`none` for the GET requests). -/
structure Request where
  url : JSStr
  headers : List (JSStr × JSStr)
  body : Option (List JValue)
deriving DecidableEq, Repr

/-- The z-image-turbo host (hfService.ts line 3). -/
def zImageBaseURL : JSStr := "https://luca115-z-image-turbo.hf.space".toList

/-- The qwen-image-fast host (hfService.ts line 4). -/
def qwenImageBaseURL : JSStr := "https://mcp-tools-qwen-image-fast.hf.space".toList

/-- The `data` array of the z-image-turbo enqueue call (hfService.ts lines
98-100): `[prompt, height, width, 8, seed, false]`. -/
def zImageEnqueueData (prompt : JSStr) (ar : AspectRatioOption) (seed : Int)
    (enableHD : Bool) : List JValue :=
  [.jstr prompt, .jnum (getZImageDimensions ar enableHD).height,
   .jnum (getZImageDimensions ar enableHD).width, .jnum 8, .jnum seed,
   .jbool false]

/-- The z-image-turbo enqueue request (hfService.ts lines 95-101). -/
def zImageEnqueueRequest (token : Option JSStr) (prompt : JSStr)
    (ar : AspectRatioOption) (seed : Int) (enableHD : Bool) : Request :=
  ⟨zImageBaseURL ++ "/gradio_api/call/generate_image".toList,
   getAuthHeaders token, some (zImageEnqueueData prompt ar seed enableHD)⟩

/-- The z-image-turbo result request (hfService.ts lines 103-105). -/
def zImageResultRequest (token : Option JSStr) (eventId : JSStr) : Request :=
  ⟨zImageBaseURL ++ "/gradio_api/call/generate_image/".toList ++ eventId,
   getAuthHeaders token, none⟩

/-- The `data` array of the qwen-image-fast enqueue call (hfService.ts line
134): `[prompt, seed || 42, seed === undefined, aspectRatio, 3, 8]`. JS
`seed || 42` is 42 both when `seed` is `undefined` and when it is the falsy
number 0; `seed === undefined` is the randomize flag. -/
def qwenEnqueueData (prompt : JSStr) (ar : AspectRatioOption)
    (seed : Option Int) : List JValue :=
  [.jstr prompt,
   .jnum (match seed with
     | none => 42
     | some s => if s = 0 then 42 else s),
   .jbool (decide (seed = none)),
   .jstr (ratioLabel ar), .jnum 3, .jnum 8]

/-- The qwen-image-fast enqueue request (hfService.ts lines 130-136). -/
def qwenEnqueueRequest (token : Option JSStr) (prompt : JSStr)
    (ar : AspectRatioOption) (seed : Option Int) : Request :=
  ⟨qwenImageBaseURL ++ "/gradio_api/call/generate_image".toList,
   getAuthHeaders token, some (qwenEnqueueData prompt ar seed)⟩

/-- The qwen-image-fast result request (hfService.ts lines 138-140). -/
def qwenResultRequest (token : Option JSStr) (eventId : JSStr) : Request :=
  ⟨qwenImageBaseURL ++ "/gradio_api/call/generate_image/".toList ++ eventId,
   getAuthHeaders token, none⟩

/-- Claim C8 (confirmed): all four enqueue/result requests carry exactly the
headers of `getAuthHeaders`; those always include the content type, include
`Authorization: Bearer <token>` exactly when a (truthy) token is stored, and
include no Authorization header at all otherwise. -/
theorem auth_header_attached (token : Option JSStr) (prompt : JSStr)
    (ar : AspectRatioOption) (seedZ : Int) (hd : Bool) (seedQ : Option Int)
    (eid1 eid2 : JSStr) :
    ((zImageEnqueueRequest token prompt ar seedZ hd).headers = getAuthHeaders token
      ∧ (zImageResultRequest token eid1).headers = getAuthHeaders token
      ∧ (qwenEnqueueRequest token prompt ar seedQ).headers = getAuthHeaders token
      ∧ (qwenResultRequest token eid2).headers = getAuthHeaders token)
    ∧ contentTypeHeader ∈ getAuthHeaders token
    ∧ (∀ t, token = some t → t.isEmpty = false →
        ("Authorization".toList, "Bearer ".toList ++ t) ∈ getAuthHeaders token)
    ∧ (truthyStr token = false →
        ∀ v, ("Authorization".toList, v) ∉ getAuthHeaders token) := by
  refine ⟨⟨rfl, rfl, rfl, rfl⟩, ?_, ?_, ?_⟩
  · unfold getAuthHeaders
    by_cases h : truthyStr token = false
    · rw [if_pos h]
      exact List.mem_cons_self contentTypeHeader []
    · rw [if_neg h]
      exact List.mem_cons_self contentTypeHeader _
  · intro t ht hemp
    subst ht
    unfold getAuthHeaders
    rw [if_neg (by simp [truthyStr, hemp])]
    exact List.mem_cons_of_mem contentTypeHeader
      (List.mem_cons_self ("Authorization".toList, "Bearer ".toList ++ t) [])
  · intro h v hv
    unfold getAuthHeaders at hv
    rw [if_pos h] at hv
    rcases List.mem_singleton.mp hv with heq
    have hfst : "Authorization".toList = contentTypeHeader.1 :=
      congrArg Prod.fst heq
    exact absurd hfst (by decide)

/-- Witness for claim C8 at a concrete stored token. -/
theorem auth_header_attached_witness :
    ("Authorization".toList, "Bearer ".toList ++ ['k'])
      ∈ getAuthHeaders (some ['k']) :=
  (auth_header_attached (some ['k']) [] .r1_1 0 false none [] []).2.2.1
    ['k'] rfl (by decide)

/-- Claim C9 (confirmed): in the qwen-image-fast enqueue payload, a missing
seed gives slot 42 with randomize `true`; a nonzero seed s gives slot s with
randomize `false`; and the supplied seed 0 is silently replaced by 42 with
randomize `false`. -/
theorem qwen_seed_slot (prompt : JSStr) (ar : AspectRatioOption) :
    ((qwenEnqueueData prompt ar none)[1]? = some (.jnum 42)
      ∧ (qwenEnqueueData prompt ar none)[2]? = some (.jbool true))
    ∧ (∀ s : Int, s ≠ 0 →
        (qwenEnqueueData prompt ar (some s))[1]? = some (.jnum s)
        ∧ (qwenEnqueueData prompt ar (some s))[2]? = some (.jbool false))
    ∧ ((qwenEnqueueData prompt ar (some 0))[1]? = some (.jnum 42)
      ∧ (qwenEnqueueData prompt ar (some 0))[2]? = some (.jbool false)) := by
  refine ⟨⟨rfl, rfl⟩, ?_, ⟨rfl, rfl⟩⟩
  intro s hs
  constructor
  · simp [qwenEnqueueData, hs]
  · simp [qwenEnqueueData]

/-- Witness for claim C9 at the concrete seed 7. -/
theorem qwen_seed_slot_witness :
    (qwenEnqueueData [] .r1_1 (some 7))[1]? = some (.jnum 7) :=
  ((qwen_seed_slot [] .r1_1).2.1 7 (by decide)).1

/-- Claim C10 (confirmed): for `4:5` and `5:4` the chosen dimensions are the
square defaults (2048 by 2048 with HD, 1024 by 1024 without), whose sides do
not stand in the requested proportion; for every other option the returned
width and height reduce by their gcd exactly to the requested ratio, in both
modes. -/
theorem dimensions_follow_requested_proportions :
    (∀ hd : Bool,
      getZImageDimensions .r4_5 hd
          = (if hd then ⟨2048, 2048⟩ else ⟨1024, 1024⟩)
        ∧ getZImageDimensions .r5_4 hd
          = (if hd then ⟨2048, 2048⟩ else ⟨1024, 1024⟩)
        ∧ (getZImageDimensions .r4_5 hd).width * 5
          ≠ (getZImageDimensions .r4_5 hd).height * 4
        ∧ (getZImageDimensions .r5_4 hd).width * 4
          ≠ (getZImageDimensions .r5_4 hd).height * 5)
    ∧ (∀ (ar : AspectRatioOption) (hd : Bool), ar ≠ .r4_5 → ar ≠ .r5_4 →
        (getZImageDimensions ar hd).width
            / Nat.gcd (getZImageDimensions ar hd).width
                (getZImageDimensions ar hd).height
          = (ratioNumbers ar).1
        ∧ (getZImageDimensions ar hd).height
            / Nat.gcd (getZImageDimensions ar hd).width
                (getZImageDimensions ar hd).height
          = (ratioNumbers ar).2) := by
  constructor
  · decide
  · decide

/-- Witness for claim C10 at the 16:9 option in HD mode. -/
theorem dimensions_follow_requested_proportions_witness :
    (getZImageDimensions .r16_9 true).width
        / Nat.gcd (getZImageDimensions .r16_9 true).width
            (getZImageDimensions .r16_9 true).height
      = (ratioNumbers .r16_9).1
    ∧ (getZImageDimensions .r16_9 true).height
        / Nat.gcd (getZImageDimensions .r16_9 true).width
            (getZImageDimensions .r16_9 true).height
      = (ratioNumbers .r16_9).2 :=
  dimensions_follow_requested_proportions.2 .r16_9 true (by decide) (by decide)
